import Mathlib

/-!
Shallow embedding of the probability engine of `src/ygo_calc.py`:
the exact hypergeometric calculator (`hypergeom_pmf`, plus the "at least k"
summation loop of `main`), the Monte Carlo composition sampler
(`monte_carlo_simulation`) and the Monte Carlo constraint-satisfaction
estimator (`simulate_playable_hands_advanced`).

Modelling conventions:
* Python `int` is `Int` (counts may be negative in a malformed deck); sizes
  that Python obtains from `st.number_input` with `min_value ≥ 0` are `ℕ`.
* Python `float` results produced by a final division of exact integers are
  modelled in `ℚ`; the code performs exact integer combinatorics followed by
  one division, so the rational value is the exact value the float rounds.
* A Python function that can raise (`math.comb` on a negative argument,
  `random.sample` when the sample is larger than the population,
  a division by zero) returns `Option`; `none` is an uncaught exception.
* The random number generator is abstracted as an oracle
  `sample : ℕ → List String` giving the hand returned by the i-th call of
  `random.sample`; the error check of `random.sample` stays explicit.
* A Python dict is an association list in insertion order (keys unique in
  the application; no theorem below needs uniqueness).
-/

/-- Python's `math.comb n k`: raises `ValueError` (here `none`) when either
argument is negative, otherwise returns the binomial coefficient, which is
`0` when `k > n`. -/
def pycomb (n k : Int) : Option ℕ :=
  if n < 0 ∨ k < 0 then none else some (n.toNat.choose k.toNat)

/-- `hypergeom_pmf` (src/ygo_calc.py lines 59-62):
`if k > K or k > n or n > N: return 0.0` then
`return (math.comb(K, k) * math.comb(N - K, n - k)) / math.comb(N, n)`.
Arguments are the non-negative integers the application supplies. -/
def hypergeom_pmf (k K n N : ℕ) : Option ℚ :=
  if k > K ∨ k > n ∨ n > N then some 0
  else do
    let a ← pycomb (K : Int) (k : Int)
    let b ← pycomb ((N : Int) - (K : Int)) ((n : Int) - (k : Int))
    let c ← pycomb (N : Int) (n : Int)
    pure ((a : ℚ) * (b : ℚ) / (c : ℚ))

/-- The "At least k" loop of `main` (src/ygo_calc.py lines 424-427):
`p_at_least = 0.0; for kk in range(k_value, min(K, hand_size) + 1):
p_at_least += hypergeom_pmf(kk, K, hand_size, N)`.
`Option.getD 0` reads the value of each call; in every situation the
application reaches this loop the calls return normally. -/
def p_at_least (k K n N : ℕ) : ℚ :=
  ∑ kk ∈ Finset.Ico k (min K n + 1), (hypergeom_pmf kk K n N).getD 0

/-- The deck entries both simulation routines keep: every `(card, count)`
item with `card != "_notes"`. -/
def activeDeck (deck : List (String × Int)) : List (String × Int) :=
  deck.filter (fun p => p.1 ≠ "_notes")

/-- `deck_list`: the expanded multiset
`[card for card, count in deck.items() if card != "_notes" for _ in range(count)]`;
`range(count)` of a negative count is empty, hence `Int.toNat`. -/
def deckList (deck : List (String × Int)) : List String :=
  (activeDeck deck).flatMap (fun p => List.replicate p.2.toNat p.1)

/-- `total_deck_size = sum(count for card, count in deck.items() if card != "_notes")`. -/
def totalDeckSize (deck : List (String × Int)) : Int :=
  ((activeDeck deck).map Prod.snd).sum

/-- One iteration of the sampling loop of `monte_carlo_simulation`:
`hand = random.sample(deck_list, hand_size)` raises `ValueError` when
`hand_size` exceeds the population, otherwise the hand's counts are added
into the running `results` counter. -/
def drawStep (dl : List String) (hand_size : ℕ) (sample : ℕ → List String)
    (acc : Option (String → ℕ)) (i : ℕ) : Option (String → ℕ) := do
  let r ← acc
  if hand_size > dl.length then none
  else pure (fun c => r c + (sample i).count c)

/-- The `for _ in range(num_draws)` loop of `monte_carlo_simulation`,
accumulating the `results` counter. -/
def drawResults (dl : List String) (hand_size : ℕ) (sample : ℕ → List String)
    (num_draws : ℕ) : Option (String → ℕ) :=
  (List.range num_draws).foldl (drawStep dl hand_size sample) (some (fun _ => 0))

/-- `expected_avg_hand = {card: (count / total_deck_size) * hand_size
for card, count in deck.items() if card != "_notes"}`; the division raises
`ZeroDivisionError` when `total_deck_size` is `0` and an item exists. -/
def expectedAvg (deck : List (String × Int)) (hand_size : ℕ) :
    Option (List (String × ℚ)) :=
  (activeDeck deck).mapM (fun p =>
    if totalDeckSize deck = 0 then none
    else some (p.1, ((p.2 : ℚ) / ((totalDeckSize deck : ℚ))) * (hand_size : ℚ)))

/-- `monte_carlo_simulation` (src/ygo_calc.py lines 65-89). The `results`
counter and the derived `simulated_avg_hand` are modelled as total maps
`String → ℕ` / `String → ℚ` (a card absent from every hand has value 0);
the sampling loop runs before either average map is built, exactly as in
the source, so its exception wins. -/
def monte_carlo_simulation (deck : List (String × Int)) (hand_size num_draws : ℕ)
    (sample : ℕ → List String) :
    Option (Int × (String → ℚ) × List (String × ℚ)) := do
  let results ← drawResults (deckList deck) hand_size sample num_draws
  let simulated := fun c => ((results c : ℚ) / (num_draws : ℚ))
  let expected ← expectedAvg deck hand_size
  pure (totalDeckSize deck, simulated, expected)

/-- The constraint check of one drawn hand: every `(ctype, (min_ct, max_ct))`
must satisfy `min_ct <= hand_counts.get(ctype, 0) <= max_ct`. -/
def handSatisfies (hand : List String) (constraints : List (String × Int × Int)) : Bool :=
  constraints.all (fun p =>
    decide (p.2.1 ≤ (hand.count p.1 : Int)) && decide ((hand.count p.1 : Int) ≤ p.2.2))

/-- One iteration of the sampling loop of `simulate_playable_hands_advanced`. -/
def validStep (dl : List String) (hand_size : ℕ)
    (constraints : List (String × Int × Int)) (sample : ℕ → List String)
    (acc : Option ℕ) (i : ℕ) : Option ℕ := do
  let v ← acc
  if hand_size > dl.length then none
  else if handSatisfies (sample i) constraints then pure (v + 1) else pure v

/-- `simulate_playable_hands_advanced` (src/ygo_calc.py lines 92-121):
builds `deck_list` and `total_deck_size`, returns the sentinel `(0, 0)`
when `hand_size > total_deck_size`, otherwise counts the sampled hands
meeting every constraint and returns `(valid_count, num_draws)`. -/
def simulate_playable_hands_advanced (deck : List (String × Int))
    (hand_size num_draws : ℕ) (constraints : List (String × Int × Int))
    (sample : ℕ → List String) : Option (ℕ × ℕ) :=
  if (hand_size : Int) > totalDeckSize deck then some (0, 0)
  else do
    let v ← (List.range num_draws).foldl
      (validStep (deckList deck) hand_size constraints sample) (some 0)
    pure (v, num_draws)

/-! ### Helper lemmas about `hypergeom_pmf` -/

lemma pmf_eval {k K n N : ℕ} (h1 : k ≤ K) (h2 : k ≤ n) (h3 : n ≤ N) (h4 : K ≤ N) :
    hypergeom_pmf k K n N =
      some (((K.choose k : ℚ) * ((N - K).choose (n - k) : ℚ)) / ((N.choose n : ℚ))) := by
  have g : ¬ (k > K ∨ k > n ∨ n > N) := by omega
  have c1 : ¬ ((K : Int) < 0 ∨ (k : Int) < 0) := by omega
  have c2 : ¬ ((N : Int) - (K : Int) < 0 ∨ (n : Int) - (k : Int) < 0) := by omega
  have c3 : ¬ ((N : Int) < 0 ∨ (n : Int) < 0) := by omega
  have e1 : ((K : Int)).toNat = K := by omega
  have e2 : (((N : Int) - (K : Int))).toNat = N - K := by omega
  have e3 : (((n : Int) - (k : Int))).toNat = n - k := by omega
  have e4 : ((N : Int)).toNat = N := by omega
  have e5 : ((k : Int)).toNat = k := by omega
  have e6 : ((n : Int)).toNat = n := by omega
  simp only [hypergeom_pmf, pycomb, if_neg g, if_neg c1, if_neg c2, if_neg c3,
    e1, e2, e3, e4, e5, e6, Option.bind_eq_bind, Option.some_bind]
  rfl

/-- Vandermonde's identity restricted to the support `k ≤ min K n`. -/
lemma sum_choose_eq {K N : ℕ} (hK : K ≤ N) (n : ℕ) :
    ∑ k ∈ Finset.range (min K n + 1), K.choose k * (N - K).choose (n - k) =
      N.choose n := by
  have hv := Nat.add_choose_eq K (N - K) n
  rw [Nat.add_sub_cancel' hK, Finset.Nat.sum_antidiagonal_eq_sum_range_succ_mk] at hv
  rw [hv]
  apply Finset.sum_subset
  · intro x hx
    simp only [Finset.mem_range] at hx ⊢
    omega
  · intro x hx1 hx2
    simp only [Finset.mem_range] at hx1 hx2
    have hKx : K < x := by omega
    simp [Nat.choose_eq_zero_of_lt hKx]

lemma pmf_some_nonneg {k K n N : ℕ} {q : ℚ} (h : hypergeom_pmf k K n N = some q) :
    0 ≤ q := by
  by_cases g : k > K ∨ k > n ∨ n > N
  · rw [hypergeom_pmf, if_pos g] at h
    obtain rfl : (0 : ℚ) = q := Option.some_injective _ h
    exact le_refl 0
  · push_neg at g
    obtain ⟨g1, g2, g3⟩ := g
    by_cases hK : K ≤ N
    · rw [pmf_eval g1 g2 g3 hK] at h
      have hq := Option.some_injective _ h
      rw [← hq]
      positivity
    · have gg : ¬ (k > K ∨ k > n ∨ n > N) := by omega
      have c1 : ¬ ((K : Int) < 0 ∨ (k : Int) < 0) := by omega
      have c2 : ((N : Int) - (K : Int) < 0 ∨ (n : Int) - (k : Int) < 0) := by omega
      simp only [hypergeom_pmf, pycomb, if_neg gg, if_neg c1, if_pos c2,
        Option.bind_eq_bind, Option.some_bind, Option.none_bind] at h
      exact Option.noConfusion h

lemma pmf_getD_nonneg (k K n N : ℕ) : 0 ≤ (hypergeom_pmf k K n N).getD 0 := by
  cases h : hypergeom_pmf k K n N with
  | none => simp
  | some q => simpa using pmf_some_nonneg h

lemma pmf_some_le_one {k K n N : ℕ} {q : ℚ} (hK : K ≤ N) (hn : n ≤ N)
    (h : hypergeom_pmf k K n N = some q) : q ≤ 1 := by
  by_cases g : k > K ∨ k > n ∨ n > N
  · rw [hypergeom_pmf, if_pos g] at h
    obtain rfl : (0 : ℚ) = q := Option.some_injective _ h
    norm_num
  · push_neg at g
    obtain ⟨g1, g2, g3⟩ := g
    rw [pmf_eval g1 g2 g3 hK] at h
    have hq := Option.some_injective _ h
    subst hq
    have hD : (0 : ℚ) < (N.choose n : ℚ) := by exact_mod_cast Nat.choose_pos hn
    rw [div_le_one hD]
    have hterm : K.choose k * (N - K).choose (n - k) ≤ N.choose n := by
      rw [← sum_choose_eq hK n]
      exact Finset.single_le_sum (f := fun i => K.choose i * (N - K).choose (n - i))
        (fun i _ => Nat.zero_le _) (Finset.mem_range.mpr (by omega))
    exact_mod_cast hterm

/-! ### Helper lemmas about the deck expansion and the sampling loops -/

lemma sum_le_expanded_length (l : List (String × Int)) :
    ((l.map Prod.snd).sum : Int) ≤
      ((l.flatMap (fun p => List.replicate p.2.toNat p.1)).length : Int) := by
  induction l with
  | nil => simp
  | cons p l ih =>
    simp only [List.map_cons, List.sum_cons, List.flatMap_cons, List.length_append,
      List.length_replicate]
    push_cast
    omega

lemma expanded_length_of_nonneg (l : List (String × Int)) (h : ∀ p ∈ l, 0 ≤ p.2) :
    ((l.flatMap (fun p => List.replicate p.2.toNat p.1)).length : Int) =
      (l.map Prod.snd).sum := by
  induction l with
  | nil => simp
  | cons p l ih =>
    simp only [List.map_cons, List.sum_cons, List.flatMap_cons, List.length_append,
      List.length_replicate]
    have hp := h p (List.mem_cons_self p l)
    have ih2 := ih (fun q hq => h q (List.mem_cons_of_mem p hq))
    push_cast
    omega

lemma totalDeckSize_le_deckList_length (deck : List (String × Int)) :
    totalDeckSize deck ≤ ((deckList deck).length : Int) :=
  sum_le_expanded_length (activeDeck deck)

lemma deckList_length_of_nonneg (deck : List (String × Int))
    (h : ∀ p ∈ deck, 0 ≤ p.2) :
    ((deckList deck).length : Int) = totalDeckSize deck :=
  expanded_length_of_nonneg _ (fun p hp => h p (List.mem_of_mem_filter hp))

lemma drawResults_none (dl : List String) (hs : ℕ) (s : ℕ → List String)
    {nd : ℕ} (hnd : 1 ≤ nd) (hlen : dl.length < hs) :
    drawResults dl hs s nd = none := by
  obtain ⟨m, rfl⟩ : ∃ m, nd = m + 1 := ⟨nd - 1, by omega⟩
  unfold drawResults
  rw [List.range_succ, List.foldl_append, List.foldl_cons, List.foldl_nil]
  cases h : (List.range m).foldl (drawStep dl hs s) (some fun _ => 0) with
  | none => rfl
  | some r => simp [drawStep, hlen]

lemma foldl_validStep_some (dl : List String) (hs : ℕ)
    (cs : List (String × Int × Int)) (s : ℕ → List String)
    (hlen : hs ≤ dl.length) (l : List ℕ) (v : ℕ) :
    ∃ w, l.foldl (validStep dl hs cs s) (some v) = some w := by
  induction l generalizing v with
  | nil => exact ⟨v, rfl⟩
  | cons i l ih =>
    have hnot : ¬ (dl.length < hs) := Nat.not_lt.mpr hlen
    have hv : validStep dl hs cs s (some v) i =
        some (if handSatisfies (s i) cs then v + 1 else v) := by
      simp only [validStep, Option.bind_eq_bind, Option.some_bind, if_neg hnot]
      split <;> rfl
    rw [List.foldl_cons, hv]
    exact ih _

lemma mapM_isSome {α β : Type} (f : α → Option β) (l : List α)
    (h : ∀ a ∈ l, (f a).isSome = true) : (l.mapM f).isSome = true := by
  induction l with
  | nil => rfl
  | cons a l ih =>
    have ha := h a (List.mem_cons_self a l)
    have ih2 := ih (fun x hx => h x (List.mem_cons_of_mem a hx))
    obtain ⟨b, hb⟩ := Option.isSome_iff_exists.mp ha
    obtain ⟨bs, hbs⟩ := Option.isSome_iff_exists.mp ih2
    rw [← List.mapM'_eq_mapM] at hbs ⊢
    rw [List.mapM'_cons]
    simp [hb, hbs]

lemma activeDeck_cons_notes (v : Int) (d : List (String × Int)) :
    activeDeck (("_notes", v) :: d) = activeDeck d := by
  simp [activeDeck]

lemma activeDeck_cons_of_ne {l : String} (c : Int) (d : List (String × Int))
    (h : l ≠ "_notes") : activeDeck ((l, c) :: d) = (l, c) :: activeDeck d := by
  simp [activeDeck, h]

/-! ### Claim theorems -/

/-- C1: for non-negative integers with k ≤ K, k ≤ n, n ≤ N and K ≤ N,
`hypergeom_pmf` (the engine's ExactlyK mode) returns exactly
C(K, k) * C(N - K, n - k) / C(N, n): exact integer binomial coefficients
followed by a single division. -/
theorem hypergeom_pmf_exact_formula (k K n N : ℕ) (h1 : k ≤ K) (h2 : k ≤ n)
    (h3 : n ≤ N) (h4 : K ≤ N) :
    hypergeom_pmf k K n N =
      some (((K.choose k : ℚ) * ((N - K).choose (n - k) : ℚ)) / ((N.choose n : ℚ))) :=
  pmf_eval h1 h2 h3 h4

/-- Witness for C1 at (k, K, n, N) = (1, 3, 5, 40). -/
theorem hypergeom_pmf_exact_formula_witness :
    hypergeom_pmf 1 3 5 40 =
      some (((Nat.choose 3 1 : ℚ) * ((Nat.choose 37 4 : ℚ))) / ((Nat.choose 40 5 : ℚ))) :=
  hypergeom_pmf_exact_formula 1 3 5 40 (by decide) (by decide) (by decide) (by decide)

/-- C2: whenever k > K, k > n, or n > N, `hypergeom_pmf` returns 0.0 and
raises no error: the guard fires before any `math.comb` call. -/
theorem hypergeom_pmf_impossible_zero (k K n N : ℕ)
    (h : k > K ∨ k > n ∨ n > N) : hypergeom_pmf k K n N = some 0 := by
  rw [hypergeom_pmf, if_pos h]

/-- Witness for C2 at the spec's example K=3, n=5, N=40, k=4. -/
theorem hypergeom_pmf_impossible_zero_witness :
    hypergeom_pmf 4 3 5 40 = some 0 :=
  hypergeom_pmf_impossible_zero 4 3 5 40 (by decide)

/-- C3 counterexample: at (k, K, n, N) = (0, 5, 1, 3) the zero-guard is
passed (0 ≤ 5, 0 ≤ 1, 1 ≤ 3) but K > N makes `math.comb(N - K, n - k)`
receive the negative population -2, so the call raises ValueError instead
of returning a value: `hypergeom_pmf` is not total without K ≤ N. -/
theorem hypergeom_pmf_not_total : hypergeom_pmf 0 5 1 3 = none := by decide

/-- C3 amended: `hypergeom_pmf` is total over all non-negative inputs with
K ≤ N, and a "choose more than available" coefficient with a non-negative
pool (n - k > N - K) yields a zero result rather than an error; totality
fails only for K > N, where `math.comb` receives a negative argument. -/
theorem hypergeom_pmf_total_of_K_le (k K n N : ℕ) (hK : K ≤ N) :
    (hypergeom_pmf k K n N).isSome = true ∧
    (k ≤ K → k ≤ n → n ≤ N → N - K < n - k → hypergeom_pmf k K n N = some 0) := by
  constructor
  · by_cases g : k > K ∨ k > n ∨ n > N
    · rw [hypergeom_pmf, if_pos g]; rfl
    · push_neg at g
      rw [pmf_eval g.1 g.2.1 g.2.2 hK]; rfl
  · intro h1 h2 h3 hgt
    rw [pmf_eval h1 h2 h3 hK, Nat.choose_eq_zero_of_lt hgt]
    norm_num

/-- Witness for the amended C3 at (k, K, n, N) = (1, 2, 4, 4), where
n - k = 3 exceeds N - K = 2. -/
theorem hypergeom_pmf_total_of_K_le_witness :
    (hypergeom_pmf 1 2 4 4).isSome = true ∧ hypergeom_pmf 1 2 4 4 = some 0 := by
  have h := hypergeom_pmf_total_of_K_le 1 2 4 4 (by decide)
  exact ⟨h.1, h.2 (by decide) (by decide) (by decide) (by decide)⟩

/-- C6: for 0 ≤ K ≤ N and 0 < n ≤ N, every value of `hypergeom_pmf` lies in
[0, 1], and the ExactlyK values summed over k = 0..min(K, n) equal 1 exactly
in rational arithmetic. -/
theorem hypergeom_pmf_range_and_sum (K n N : ℕ) (hK : K ≤ N) (hn0 : 0 < n)
    (hn : n ≤ N) :
    (∀ k, ∃ q, hypergeom_pmf k K n N = some q ∧ 0 ≤ q ∧ q ≤ 1) ∧
    (∑ k ∈ Finset.range (min K n + 1), (hypergeom_pmf k K n N).getD 0) = 1 := by
  constructor
  · intro k
    by_cases g : k > K ∨ k > n ∨ n > N
    · exact ⟨0, by rw [hypergeom_pmf, if_pos g], le_refl 0, by norm_num⟩
    · push_neg at g
      exact ⟨_, pmf_eval g.1 g.2.1 g.2.2 hK,
        pmf_some_nonneg (pmf_eval g.1 g.2.1 g.2.2 hK),
        pmf_some_le_one hK hn (pmf_eval g.1 g.2.1 g.2.2 hK)⟩
  · have hD : (0 : ℚ) < (N.choose n : ℚ) := by exact_mod_cast Nat.choose_pos hn
    have hsum : ∀ k ∈ Finset.range (min K n + 1),
        (hypergeom_pmf k K n N).getD 0 =
          ((K.choose k : ℚ) * ((N - K).choose (n - k) : ℚ)) / ((N.choose n : ℚ)) := by
      intro k hk
      simp only [Finset.mem_range] at hk
      rw [pmf_eval (by omega) (by omega) hn hK]
      rfl
    rw [Finset.sum_congr rfl hsum, ← Finset.sum_div,
      div_eq_one_iff_eq (ne_of_gt hD)]
    exact_mod_cast congrArg (fun m : ℕ => (m : ℚ)) (sum_choose_eq hK n)

/-- Witness for C6 at K=3, n=5, N=40. -/
theorem hypergeom_pmf_range_and_sum_witness :
    (∃ q, hypergeom_pmf 2 3 5 40 = some q ∧ 0 ≤ q ∧ q ≤ 1) ∧
    (∑ k ∈ Finset.range (min 3 5 + 1), (hypergeom_pmf k 3 5 40).getD 0) = 1 := by
  have h := hypergeom_pmf_range_and_sum 3 5 40 (by decide) (by decide) (by decide)
  exact ⟨h.1 2, h.2⟩

/-- C7: the at-least-k probability computed by the source loop — the sum of
`hypergeom_pmf` over [k, min(K, n)], 0.0 on an empty range — is
monotonically non-increasing in k for fixed (K, n, N) with n ≤ N. -/
theorem p_at_least_monotone (k K n N : ℕ) (hn : n ≤ N) :
    p_at_least (k + 1) K n N ≤ p_at_least k K n N ∧
    (min K n < k → p_at_least k K n N = 0) := by
  constructor
  · unfold p_at_least
    apply Finset.sum_le_sum_of_subset_of_nonneg
    · exact Finset.Ico_subset_Ico (Nat.le_succ k) (le_refl _)
    · intro i _ _
      exact pmf_getD_nonneg i K n N
  · intro hk
    unfold p_at_least
    rw [Finset.Ico_eq_empty (by omega), Finset.sum_empty]

/-- Witness for C7 at K=3, n=5, N=40: the step from k=1 to k=2 and the
empty range at k=4 > min(3, 5). -/
theorem p_at_least_monotone_witness :
    p_at_least 2 3 5 40 ≤ p_at_least 1 3 5 40 ∧ p_at_least 4 3 5 40 = 0 :=
  ⟨(p_at_least_monotone 1 3 5 40 (by decide)).1,
   (p_at_least_monotone 4 3 5 40 (by decide)).2 (by decide)⟩

/-- C4: for every deck, constraint set and sample count,
`simulate_playable_hands_advanced` returns the sentinel (0, 0) — for every
sampling oracle, so without consuming a sample — when hand_size exceeds the
total deck size, and otherwise returns (valid_count, num_draws), so the
caller can tell "not run" from "ran and found nothing". -/
theorem simulate_playable_sentinel (deck : List (String × Int))
    (hand_size num_draws : ℕ) (constraints : List (String × Int × Int))
    (sample : ℕ → List String) :
    ((hand_size : Int) > totalDeckSize deck →
      simulate_playable_hands_advanced deck hand_size num_draws constraints sample
        = some (0, 0)) ∧
    ((hand_size : Int) ≤ totalDeckSize deck →
      ∃ v, simulate_playable_hands_advanced deck hand_size num_draws constraints sample
        = some (v, num_draws)) := by
  constructor
  · intro h
    rw [simulate_playable_hands_advanced, if_pos h]
  · intro h
    have hlen : hand_size ≤ (deckList deck).length := by
      have := totalDeckSize_le_deckList_length deck
      omega
    obtain ⟨w, hw⟩ := foldl_validStep_some (deckList deck) hand_size constraints
      sample hlen (List.range num_draws) 0
    refine ⟨w, ?_⟩
    rw [simulate_playable_hands_advanced, if_neg (not_lt.mpr h), hw]
    rfl

/-- Witness for C4: deck {"A": 2} with hand sizes 3 (sentinel) and 1 (runs). -/
theorem simulate_playable_sentinel_witness :
    simulate_playable_hands_advanced [("A", 2)] 3 5 [] (fun _ => []) = some (0, 0) ∧
    ∃ v, simulate_playable_hands_advanced [("A", 2)] 1 5 []
      (fun _ => ["A"]) = some (v, 5) :=
  ⟨(simulate_playable_sentinel [("A", 2)] 3 5 [] (fun _ => [])).1 (by decide),
   (simulate_playable_sentinel [("A", 2)] 1 5 [] (fun _ => ["A"])).2 (by decide)⟩

/-- C5: with a well-formed deck (non-negative counts, as the Deck data
model requires) and a positive sample count, calling
`monte_carlo_simulation` with hand_size greater than the total deck size
makes the first `random.sample` call raise: the caller receives an error —
never a division by zero, a silently clipped hand, or a fabricated
result. -/
theorem monte_carlo_invalid_hand_errors (deck : List (String × Int))
    (hand_size num_draws : ℕ) (sample : ℕ → List String)
    (hdeck : ∀ p ∈ deck, 0 ≤ p.2) (hnd : 1 ≤ num_draws)
    (hhs : (hand_size : Int) > totalDeckSize deck) :
    monte_carlo_simulation deck hand_size num_draws sample = none := by
  have hlen : (deckList deck).length < hand_size := by
    have := deckList_length_of_nonneg deck hdeck
    omega
  rw [monte_carlo_simulation, drawResults_none (deckList deck) hand_size sample hnd hlen]
  rfl

/-- Witness for C5: deck {"A": 2}, hand size 3, one draw. -/
theorem monte_carlo_invalid_hand_errors_witness :
    monte_carlo_simulation [("A", 2)] 3 1 (fun _ => []) = none :=
  monte_carlo_invalid_hand_errors [("A", 2)] 3 1 (fun _ => [])
    (by decide) (by decide) (by decide)

/-- C8 counterexample: with deck {"A": 5}, hand_size 1 ≤ 5 and zero draws,
`simulate_playable_hands_advanced` performs no rejection and returns
(0, 0) merely because it was given zero draws — indistinguishable from the
"not run" sentinel. -/
theorem zero_draws_counterexample :
    simulate_playable_hands_advanced [("A", 5)] 1 0 [] (fun _ => []) = some (0, 0) ∧
    (1 : Int) ≤ totalDeckSize [("A", 5)] := by
  constructor
  · decide
  · decide

/-- C8 amended: neither routine rejects num_draws ≤ 0; the sampling loops
simply run zero times. No division by zero occurs — with zero draws
`monte_carlo_simulation` still returns a result whenever the deck total is
nonzero (the simulated-average map divides only entries of the empty
results counter) — but `simulate_playable_hands_advanced` returns (0, 0)
for zero draws, which is ambiguous with the "not run" sentinel. -/
theorem zero_draws_not_rejected (deck : List (String × Int)) (hand_size : ℕ)
    (constraints : List (String × Int × Int)) (sample : ℕ → List String) :
    simulate_playable_hands_advanced deck hand_size 0 constraints sample
      = some (0, 0) ∧
    (totalDeckSize deck ≠ 0 →
      (monte_carlo_simulation deck hand_size 0 sample).isSome = true) := by
  constructor
  · rw [simulate_playable_hands_advanced]
    split
    · rfl
    · rfl
  · intro htot
    have h1 : drawResults (deckList deck) hand_size sample 0 = some (fun _ => 0) := rfl
    have h2 : (expectedAvg deck hand_size).isSome = true := by
      unfold expectedAvg
      apply mapM_isSome
      intro p hp
      rw [if_neg htot]
      rfl
    obtain ⟨e, he⟩ := Option.isSome_iff_exists.mp h2
    rw [monte_carlo_simulation, h1, he]
    rfl

/-- Witness for the amended C8: deck {"A": 1}, hand size 1, zero draws. -/
theorem zero_draws_not_rejected_witness :
    simulate_playable_hands_advanced [("A", 1)] 1 0 [] (fun _ => []) = some (0, 0) ∧
    (monte_carlo_simulation [("A", 1)] 1 0 (fun _ => [])).isSome = true := by
  have h := zero_draws_not_rejected [("A", 1)] 1 [] (fun _ => [])
  exact ⟨h.1, h.2 (by decide)⟩

/-- C9 counterexample: deck {"A": 3, "B": -2} carries a negative count, yet
neither routine rejects it: `monte_carlo_simulation` returns a result and
`simulate_playable_hands_advanced` returns (1, 1), although the expanded
sampling pool holds 3 cards while the reported total deck size is 1. -/
theorem negative_count_counterexample :
    (monte_carlo_simulation [("A", 3), ("B", -2)] 1 1 (fun _ => ["A"])).isSome
      = true ∧
    simulate_playable_hands_advanced [("A", 3), ("B", -2)] 1 1 []
      (fun _ => ["A"]) = some (1, 1) ∧
    ((deckList [("A", 3), ("B", -2)]).length : Int)
      ≠ totalDeckSize [("A", 3), ("B", -2)] :=
  ⟨by decide, by decide, by decide⟩

/-- C9 amended: both routines accept a negative card count and compute from
an inconsistent pool: the negative entry contributes no physical card to
the expanded deck list but is still added into — and strictly lowers — the
reported total deck size. -/
theorem negative_count_not_rejected (l : String) (c : Int)
    (d : List (String × Int)) (hl : l ≠ "_notes") (hc : c < 0) :
    deckList ((l, c) :: d) = deckList d ∧
    totalDeckSize ((l, c) :: d) = c + totalDeckSize d ∧
    totalDeckSize ((l, c) :: d) < totalDeckSize d := by
  have ha := activeDeck_cons_of_ne c d hl
  have htn : c.toNat = 0 := by omega
  refine ⟨?_, ?_, ?_⟩
  · rw [deckList, ha, List.flatMap_cons, htn]
    rfl
  · rw [totalDeckSize, ha, List.map_cons, List.sum_cons]
    rfl
  · rw [totalDeckSize, ha, List.map_cons, List.sum_cons]
    have hrest : ((activeDeck d).map Prod.snd).sum = totalDeckSize d := rfl
    omega

/-- Witness for the amended C9: the entry ("B", -2) in front of {"A": 3}. -/
theorem negative_count_not_rejected_witness :
    deckList [("B", -2), ("A", 3)] = deckList [("A", 3)] ∧
    totalDeckSize [("B", -2), ("A", 3)] = -2 + totalDeckSize [("A", 3)] ∧
    totalDeckSize [("B", -2), ("A", 3)] < totalDeckSize [("A", 3)] :=
  negative_count_not_rejected "B" (-2) [("A", 3)] (by decide) (by decide)

/-- C10: a deck entry labelled "_notes" is excluded — whatever its value —
from the sampling pool, the reported total deck size and the
expected-average map, leaving both routines' results unchanged; every other
label contributes its full count to the pool and the total. -/
theorem notes_label_excluded (v : Int) (d : List (String × Int))
    (hand_size num_draws : ℕ) (constraints : List (String × Int × Int))
    (sample : ℕ → List String) (l : String) (c : Int) (d2 : List (String × Int)) :
    monte_carlo_simulation (("_notes", v) :: d) hand_size num_draws sample =
      monte_carlo_simulation d hand_size num_draws sample ∧
    simulate_playable_hands_advanced (("_notes", v) :: d) hand_size num_draws
        constraints sample =
      simulate_playable_hands_advanced d hand_size num_draws constraints sample ∧
    (l ≠ "_notes" →
      deckList ((l, c) :: d2) = List.replicate c.toNat l ++ deckList d2 ∧
      totalDeckSize ((l, c) :: d2) = c + totalDeckSize d2) := by
  have ha := activeDeck_cons_notes v d
  refine ⟨?_, ?_, ?_⟩
  · simp only [monte_carlo_simulation, deckList, totalDeckSize, expectedAvg, ha]
  · simp only [simulate_playable_hands_advanced, deckList, totalDeckSize, ha]
  · intro hl
    constructor
    · rw [deckList, activeDeck_cons_of_ne c d2 hl, List.flatMap_cons]
      rfl
    · rw [totalDeckSize, activeDeck_cons_of_ne c d2 hl, List.map_cons, List.sum_cons]
      rfl

/-- Witness for C10: the entry ("_notes", 7) in front of {"A": 2}, and the
ordinary entry ("A", 2) in front of {"B": 1}. -/
theorem notes_label_excluded_witness :
    monte_carlo_simulation [("_notes", 7), ("A", 2)] 1 2 (fun _ => ["A"]) =
      monte_carlo_simulation [("A", 2)] 1 2 (fun _ => ["A"]) ∧
    simulate_playable_hands_advanced [("_notes", 7), ("A", 2)] 1 2 []
      (fun _ => ["A"]) =
      simulate_playable_hands_advanced [("A", 2)] 1 2 [] (fun _ => ["A"]) ∧
    (deckList [("A", 2), ("B", 1)] = List.replicate 2 "A" ++ deckList [("B", 1)] ∧
     totalDeckSize [("A", 2), ("B", 1)] = 2 + totalDeckSize [("B", 1)]) := by
  have h := notes_label_excluded 7 [("A", 2)] 1 2 [] (fun _ => ["A"]) "A" 2 [("B", 1)]
  exact ⟨h.1, h.2.1, h.2.2 (by decide)⟩
